import Mathlib

/-!
Shallow embedding of `src/utf8_mixed_radix_tokenizer.py`.

A Python `str` is modelled as a `List Nat` of Unicode codepoints (Python
strings are sequences of codepoints in `0..0x10FFFF`); Python `bytes` as a
`List Nat` of values in `0..255`; Python `int` tokens as `Int`, since
`detokenize` may receive negative tokens.  Fallible operations return
`Except`; the error constructors correspond to the distinct `ValueError`
raise sites of the source (and to the errors Python text primitives raise).
-/

set_option maxHeartbeats 1000000

deriving instance DecidableEq for Except

/-- A valid Unicode scalar value: a codepoint in `0..0x10FFFF` outside the
surrogate range `0xD800..0xDFFF`. -/
def ValidScalar (c : Nat) : Prop :=
  c ≤ 0x10FFFF ∧ ¬(0xD800 ≤ c ∧ c ≤ 0xDFFF)

instance (c : Nat) : Decidable (ValidScalar c) := by
  unfold ValidScalar; infer_instance

/-- A token (a Python `int`) whose value is a valid Unicode scalar value. -/
def ValidScalarInt (t : Int) : Prop :=
  0 ≤ t ∧ t ≤ 0x10FFFF ∧ ¬(0xD800 ≤ t ∧ t ≤ 0xDFFF)

instance (t : Int) : Decidable (ValidScalarInt t) := by
  unfold ValidScalarInt; infer_instance

/-- Standard UTF-8 byte sequence of a scalar value, by magnitude class: the
model of `char.encode` at source line 26 on its non-raising domain (Python
raises on surrogates; that case is handled in `tokenizeChar`). -/
def utf8EncodeChar (c : Nat) : List Nat :=
  if c < 0x80 then [c]
  else if c < 0x800 then
    [0xC0 ||| (c >>> 6), 0x80 ||| (c &&& 0x3F)]
  else if c < 0x10000 then
    [0xE0 ||| (c >>> 12), 0x80 ||| ((c >>> 6) &&& 0x3F), 0x80 ||| (c &&& 0x3F)]
  else
    [0xF0 ||| (c >>> 18), 0x80 ||| ((c >>> 12) &&& 0x3F),
     0x80 ||| ((c >>> 6) &&& 0x3F), 0x80 ||| (c &&& 0x3F)]

/-- Payload-bit recombination of a 2-byte UTF-8 sequence: the expression of
source line 32, also the one a strict UTF-8 decoder computes. -/
def cp2 (b0 b1 : Nat) : Nat :=
  ((b0 &&& 0x1F) <<< 6) ||| (b1 &&& 0x3F)

/-- Payload-bit recombination of a 3-byte UTF-8 sequence (source line 35). -/
def cp3 (b0 b1 b2 : Nat) : Nat :=
  ((b0 &&& 0x0F) <<< 12) ||| ((b1 &&& 0x3F) <<< 6) ||| (b2 &&& 0x3F)

/-- Payload-bit recombination of a 4-byte UTF-8 sequence (source line 38). -/
def cp4 (b0 b1 b2 b3 : Nat) : Nat :=
  ((b0 &&& 0x07) <<< 18) ||| ((b1 &&& 0x3F) <<< 12) ||| ((b2 &&& 0x3F) <<< 6) ||| (b3 &&& 0x3F)

/-- Errors `tokenize` can raise. -/
inductive TokenizeError where
  /-- Python `char.encode` raises `UnicodeEncodeError` on a surrogate codepoint. -/
  | unicodeEncodeError (c : Nat)
  /-- The `ValueError` at source line 40: UTF-8 byte length outside 1..4. -/
  | encodingLength (len : Nat) (c : Nat)
  deriving DecidableEq

/-- Body of the `tokenize` loop (source lines 26-41) for one character:
encode to UTF-8, then branch on the byte length, masking the header bits and
recombining the payload bits. -/
def tokenizeChar (c : Nat) : Except TokenizeError Nat :=
  if 0xD800 ≤ c ∧ c ≤ 0xDFFF then .error (.unicodeEncodeError c)
  else
    match utf8EncodeChar c with
    | [b0] => .ok (b0 &&& 0x7F)
    | [b0, b1] => .ok (cp2 b0 b1)
    | [b0, b1, b2] => .ok (cp3 b0 b1 b2)
    | [b0, b1, b2, b3] => .ok (cp4 b0 b1 b2 b3)
    | bs => .error (.encodingLength bs.length c)

/-- The `tokenize` method (source lines 13-42): one token per character, in
order, aborting at the first failing character. -/
def tokenize : List Nat → Except TokenizeError (List Nat)
  | [] => .ok []
  | c :: cs =>
    (tokenizeChar c).bind fun t => (tokenize cs).map fun rest => t :: rest

/-- Errors `detokenize` can raise. -/
inductive DetokenizeError where
  /-- The `ValueError` the `bytes` constructor raises when an element is
  outside `0..255` (reachable at source line 59 for a negative token); it
  carries no token value. -/
  | byteValueOutOfRange
  /-- The `ValueError` at source line 82: token not below `0x110000`. -/
  | tokenOutOfRange (t : Int)
  /-- The `ValueError` at source line 86: the reconstructed byte sequence is
  not valid UTF-8. -/
  | invalidSequence (bs : List Nat) (t : Int)
  deriving DecidableEq

/-- Model of one element check of the Python `bytes([...])` constructor. -/
def checkByte (v : Int) : Except DetokenizeError Nat :=
  if 0 ≤ v ∧ v < 256 then .ok v.toNat else .error .byteValueOutOfRange

/-- Model of the Python `bytes([...])` constructor. -/
def mkBytes : List Int → Except DetokenizeError (List Nat)
  | [] => .ok []
  | v :: vs =>
    (checkByte v).bind fun b => (mkBytes vs).map fun bs => b :: bs

/-- Strict UTF-8 decoding of a byte list into codepoints: the model of
Python `bytes.decode` with the default strict error handler.  It accepts
exactly the well-formed UTF-8 sequences, rejecting truncated sequences, bad
lead or continuation bytes, overlong forms, surrogates, and codepoints above
`0x10FFFF`. -/
def utf8DecodeBytes : List Nat → Option (List Nat)
  | [] => some []
  | b0 :: rest =>
    if b0 < 0x80 then
      (utf8DecodeBytes rest).map fun cs => b0 :: cs
    else if b0 < 0xC0 then none
    else if b0 < 0xE0 then
      match rest with
      | b1 :: rest2 =>
        if 0x80 ≤ b1 ∧ b1 < 0xC0 then
          if 0x80 ≤ cp2 b0 b1 then
            (utf8DecodeBytes rest2).map fun cs => cp2 b0 b1 :: cs
          else none
        else none
      | _ => none
    else if b0 < 0xF0 then
      match rest with
      | b1 :: b2 :: rest2 =>
        if (0x80 ≤ b1 ∧ b1 < 0xC0) ∧ (0x80 ≤ b2 ∧ b2 < 0xC0) then
          if 0x800 ≤ cp3 b0 b1 b2 ∧ ¬(0xD800 ≤ cp3 b0 b1 b2 ∧ cp3 b0 b1 b2 ≤ 0xDFFF) then
            (utf8DecodeBytes rest2).map fun cs => cp3 b0 b1 b2 :: cs
          else none
        else none
      | _ => none
    else if b0 < 0xF8 then
      match rest with
      | b1 :: b2 :: b3 :: rest2 =>
        if (0x80 ≤ b1 ∧ b1 < 0xC0) ∧ (0x80 ≤ b2 ∧ b2 < 0xC0) ∧ (0x80 ≤ b3 ∧ b3 < 0xC0) then
          if 0x10000 ≤ cp4 b0 b1 b2 b3 ∧ cp4 b0 b1 b2 b3 ≤ 0x10FFFF then
            (utf8DecodeBytes rest2).map fun cs => cp4 b0 b1 b2 b3 :: cs
          else none
        else none
      | _ => none
    else none

/-- The decode step at source lines 83-86: try `bytes.decode`, re-raising a
decoding failure as the `ValueError` carrying the bytes and the token. -/
def decodeOrFail (bs : List Nat) (t : Int) : Except DetokenizeError (List Nat) :=
  match utf8DecodeBytes bs with
  | some cs => .ok cs
  | none => .error (.invalidSequence bs t)

/-- Body of the `detokenize` loop (source lines 56-86) for one token:
classify the token by magnitude, rebuild the UTF-8 bytes with the header
bits re-inserted, and decode them.  Python `int` shifts and masks are only
reached with a nonnegative token (a negative token enters the first branch),
so they coincide with the `Nat` operations on `t.toNat`. -/
def detokenizeChar (t : Int) : Except DetokenizeError (List Nat) :=
  if t < 0x80 then
    (mkBytes [t]).bind fun bs => decodeOrFail bs t
  else if t.toNat < 0x800 then
    (mkBytes [((0xC0 ||| (t.toNat >>> 6) : Nat) : Int),
              ((0x80 ||| (t.toNat &&& 0x3F) : Nat) : Int)]).bind
      fun bs => decodeOrFail bs t
  else if t.toNat < 0x10000 then
    (mkBytes [((0xE0 ||| (t.toNat >>> 12) : Nat) : Int),
              ((0x80 ||| ((t.toNat >>> 6) &&& 0x3F) : Nat) : Int),
              ((0x80 ||| (t.toNat &&& 0x3F) : Nat) : Int)]).bind
      fun bs => decodeOrFail bs t
  else if t.toNat < 0x110000 then
    (mkBytes [((0xF0 ||| (t.toNat >>> 18) : Nat) : Int),
              ((0x80 ||| ((t.toNat >>> 12) &&& 0x3F) : Nat) : Int),
              ((0x80 ||| ((t.toNat >>> 6) &&& 0x3F) : Nat) : Int),
              ((0x80 ||| (t.toNat &&& 0x3F) : Nat) : Int)]).bind
      fun bs => decodeOrFail bs t
  else .error (.tokenOutOfRange t)

/-- The `detokenize` method (source lines 44-87): decode each token in
order, concatenating the decoded characters, aborting at the first failing
token. -/
def detokenize : List Int → Except DetokenizeError (List Nat)
  | [] => .ok []
  | t :: ts =>
    (detokenizeChar t).bind fun cs => (detokenize ts).map fun rest => cs ++ rest

/-! Arithmetic readings of the bit operations used by the codec. -/

theorem lor_pow2 {k a b : Nat} (hd : 2 ^ k ∣ a) (hb : b < 2 ^ k) : a ||| b = a + b := by
  obtain ⟨m, rfl⟩ := hd
  exact (Nat.mul_add_lt_is_or hb m).symm

theorem lor16 {a b : Nat} (ha : a % 16 = 0) (hb : b < 16) : a ||| b = a + b := by
  have h : (2 : Nat) ^ 4 = 16 := by norm_num
  exact lor_pow2 (k := 4) (by rw [h]; omega) (by rw [h]; omega)

theorem lor8 {a b : Nat} (ha : a % 8 = 0) (hb : b < 8) : a ||| b = a + b := by
  have h : (2 : Nat) ^ 3 = 8 := by norm_num
  exact lor_pow2 (k := 3) (by rw [h]; omega) (by rw [h]; omega)

theorem lor64 {a b : Nat} (ha : a % 64 = 0) (hb : b < 64) : a ||| b = a + b := by
  have h : (2 : Nat) ^ 6 = 64 := by norm_num
  exact lor_pow2 (k := 6) (by rw [h]; omega) (by rw [h]; omega)

theorem lor4096 {a b : Nat} (ha : a % 4096 = 0) (hb : b < 4096) : a ||| b = a + b := by
  have h : (2 : Nat) ^ 12 = 4096 := by norm_num
  exact lor_pow2 (k := 12) (by rw [h]; omega) (by rw [h]; omega)

theorem lor262144 {a b : Nat} (ha : a % 262144 = 0) (hb : b < 262144) : a ||| b = a + b := by
  have h : (2 : Nat) ^ 18 = 262144 := by norm_num
  exact lor_pow2 (k := 18) (by rw [h]; omega) (by rw [h]; omega)

theorem shr6 (n : Nat) : n >>> 6 = n / 64 := by
  simpa using Nat.shiftRight_eq_div_pow n 6

theorem shr12 (n : Nat) : n >>> 12 = n / 4096 := by
  simpa using Nat.shiftRight_eq_div_pow n 12

theorem shr18 (n : Nat) : n >>> 18 = n / 262144 := by
  simpa using Nat.shiftRight_eq_div_pow n 18

theorem shl6 (n : Nat) : n <<< 6 = n * 64 := by
  simpa using Nat.shiftLeft_eq n 6

theorem shl12 (n : Nat) : n <<< 12 = n * 4096 := by
  simpa using Nat.shiftLeft_eq n 12

theorem shl18 (n : Nat) : n <<< 18 = n * 262144 := by
  simpa using Nat.shiftLeft_eq n 18

theorem and127 (n : Nat) : n &&& 127 = n % 128 := by
  simpa using Nat.and_pow_two_sub_one_eq_mod n 7

theorem and63 (n : Nat) : n &&& 63 = n % 64 := by
  simpa using Nat.and_pow_two_sub_one_eq_mod n 6

theorem and31 (n : Nat) : n &&& 31 = n % 32 := by
  simpa using Nat.and_pow_two_sub_one_eq_mod n 5

theorem and15 (n : Nat) : n &&& 15 = n % 16 := by
  simpa using Nat.and_pow_two_sub_one_eq_mod n 4

theorem and7 (n : Nat) : n &&& 7 = n % 8 := by
  simpa using Nat.and_pow_two_sub_one_eq_mod n 3

/-! Closed forms for the bytes built by the codec. -/

theorem contLow (c : Nat) : 0x80 ||| (c &&& 0x3F) = 128 + c % 64 := by
  rw [and63]; exact lor64 (by omega) (by omega)

theorem cont6 (c : Nat) : 0x80 ||| ((c >>> 6) &&& 0x3F) = 128 + c / 64 % 64 := by
  rw [shr6, and63]; exact lor64 (by omega) (by omega)

theorem cont12 (c : Nat) : 0x80 ||| ((c >>> 12) &&& 0x3F) = 128 + c / 4096 % 64 := by
  rw [shr12, and63]; exact lor64 (by omega) (by omega)

theorem hdr2 (c : Nat) (h : c < 0x800) : 0xC0 ||| (c >>> 6) = 192 + c / 64 := by
  rw [shr6]; exact lor64 (by omega) (by omega)

theorem hdr3 (c : Nat) (h : c < 0x10000) : 0xE0 ||| (c >>> 12) = 224 + c / 4096 := by
  rw [shr12]; exact lor16 (by omega) (by omega)

theorem hdr4 (c : Nat) (h : c < 0x110000) : 0xF0 ||| (c >>> 18) = 240 + c / 262144 := by
  rw [shr18]; exact lor8 (by omega) (by omega)

/-! Payload reassembly, as performed both by `tokenizeChar` and by
`utf8DecodeBytes`, in hypothesis-free form. -/

theorem assemble2 (x y : Nat) : (x <<< 6) ||| (y % 64) = x * 64 + y % 64 := by
  rw [shl6]; exact lor64 (by omega) (by omega)

theorem assemble3 (x y z : Nat) :
    (x <<< 12) ||| ((y % 64) <<< 6) ||| (z % 64) = x * 4096 + y % 64 * 64 + z % 64 := by
  have hin : (x * 4096) ||| (y % 64 * 64) = x * 4096 + y % 64 * 64 :=
    lor4096 (by omega) (by omega)
  rw [shl12, shl6, hin]
  exact lor64 (by omega) (by omega)

theorem assemble4 (x y z w : Nat) :
    (x <<< 18) ||| ((y % 64) <<< 12) ||| ((z % 64) <<< 6) ||| (w % 64) =
      x * 262144 + y % 64 * 4096 + z % 64 * 64 + w % 64 := by
  have hin1 : (x * 262144) ||| (y % 64 * 4096) = x * 262144 + y % 64 * 4096 :=
    lor262144 (by omega) (by omega)
  have hin2 : (x * 262144 + y % 64 * 4096) ||| (z % 64 * 64) =
      x * 262144 + y % 64 * 4096 + z % 64 * 64 :=
    lor4096 (by omega) (by omega)
  rw [shl18, shl12, shl6, hin1, hin2]
  exact lor64 (by omega) (by omega)

/-! Per-class token reassembly: applying the masks of `tokenizeChar` to the
just-built bytes recovers the codepoint.  The same recombinations appear in
`utf8DecodeBytes`, so these lemmas serve both directions. -/

theorem tok1_arith (c : Nat) (h : c < 0x80) : c &&& 0x7F = c := by
  rw [and127]; omega

theorem tok2_arith (c : Nat) (h1 : 0x80 ≤ c) (h2 : c < 0x800) :
    cp2 (0xC0 ||| (c >>> 6)) (0x80 ||| (c &&& 0x3F)) = c := by
  unfold cp2
  rw [hdr2 c h2, contLow c]
  simp only [and31, and63]
  have h3 : (192 + c / 64) % 32 = c / 64 := by omega
  have h4 : (128 + c % 64) % 64 = c % 64 := by omega
  rw [h3, h4, assemble2]
  omega

theorem tok3_arith (c : Nat) (h1 : 0x800 ≤ c) (h2 : c < 0x10000) :
    cp3 (0xE0 ||| (c >>> 12)) (0x80 ||| ((c >>> 6) &&& 0x3F)) (0x80 ||| (c &&& 0x3F)) = c := by
  unfold cp3
  rw [hdr3 c h2, cont6 c, contLow c]
  simp only [and15, and63]
  have h3 : (224 + c / 4096) % 16 = c / 4096 := by omega
  rw [h3, assemble3]
  omega

theorem tok4_arith (c : Nat) (h1 : 0x10000 ≤ c) (h2 : c < 0x110000) :
    cp4 (0xF0 ||| (c >>> 18)) (0x80 ||| ((c >>> 12) &&& 0x3F))
      (0x80 ||| ((c >>> 6) &&& 0x3F)) (0x80 ||| (c &&& 0x3F)) = c := by
  unfold cp4
  rw [hdr4 c h2, cont12 c, cont6 c, contLow c]
  simp only [and7, and63]
  have h3 : (240 + c / 262144) % 8 = c / 262144 := by omega
  rw [h3, assemble4]
  omega

/-! Evaluation of the bytes-constructor model on in-range values. -/

theorem checkByte_ofNat (x : Nat) (h : x < 256) : checkByte (x : Int) = .ok x := by
  unfold checkByte
  rw [if_pos (by omega)]
  norm_num

theorem checkByte_neg (t : Int) (h : t < 0) : checkByte t = .error .byteValueOutOfRange := by
  unfold checkByte
  rw [if_neg (by omega)]

theorem mkBytes_one (x : Nat) (hx : x < 256) : mkBytes [(x : Int)] = .ok [x] := by
  simp only [mkBytes, checkByte_ofNat x hx]
  rfl

theorem mkBytes_two (x y : Nat) (hx : x < 256) (hy : y < 256) :
    mkBytes [(x : Int), (y : Int)] = .ok [x, y] := by
  simp only [mkBytes, checkByte_ofNat x hx, checkByte_ofNat y hy]
  rfl

theorem mkBytes_three (x y z : Nat) (hx : x < 256) (hy : y < 256) (hz : z < 256) :
    mkBytes [(x : Int), (y : Int), (z : Int)] = .ok [x, y, z] := by
  simp only [mkBytes, checkByte_ofNat x hx, checkByte_ofNat y hy, checkByte_ofNat z hz]
  rfl

theorem mkBytes_four (x y z w : Nat) (hx : x < 256) (hy : y < 256) (hz : z < 256)
    (hw : w < 256) :
    mkBytes [(x : Int), (y : Int), (z : Int), (w : Int)] = .ok [x, y, z, w] := by
  simp only [mkBytes, checkByte_ofNat x hx, checkByte_ofNat y hy, checkByte_ofNat z hz,
             checkByte_ofNat w hw]
  rfl

theorem mkBytes_neg (t : Int) (h : t < 0) : mkBytes [t] = .error .byteValueOutOfRange := by
  simp only [mkBytes, checkByte_neg t h]
  rfl

/-! Definitional unfoldings of the UTF-8 decoder on lists of each literal
length the codec rebuilds (the recursion is stuck on a symbolic tail, but
reduces once the list structure is concrete). -/

theorem utf8DecodeBytes_sh1 (b0 : Nat) :
    utf8DecodeBytes [b0] =
      if b0 < 0x80 then some [b0]
      else if b0 < 0xC0 then none
      else if b0 < 0xE0 then none
      else if b0 < 0xF0 then none
      else if b0 < 0xF8 then none
      else none := rfl

theorem utf8DecodeBytes_sh2 (b0 b1 : Nat) :
    utf8DecodeBytes [b0, b1] =
      if b0 < 0x80 then Option.map (fun cs => b0 :: cs) (utf8DecodeBytes [b1])
      else if b0 < 0xC0 then none
      else if b0 < 0xE0 then
        (if 0x80 ≤ b1 ∧ b1 < 0xC0 then
           if 0x80 ≤ cp2 b0 b1 then some [cp2 b0 b1] else none
         else none)
      else if b0 < 0xF0 then none
      else if b0 < 0xF8 then none
      else none := rfl

theorem utf8DecodeBytes_sh3 (b0 b1 b2 : Nat) :
    utf8DecodeBytes [b0, b1, b2] =
      if b0 < 0x80 then Option.map (fun cs => b0 :: cs) (utf8DecodeBytes [b1, b2])
      else if b0 < 0xC0 then none
      else if b0 < 0xE0 then
        (if 0x80 ≤ b1 ∧ b1 < 0xC0 then
           if 0x80 ≤ cp2 b0 b1 then
             Option.map (fun cs => cp2 b0 b1 :: cs) (utf8DecodeBytes [b2])
           else none
         else none)
      else if b0 < 0xF0 then
        (if (0x80 ≤ b1 ∧ b1 < 0xC0) ∧ (0x80 ≤ b2 ∧ b2 < 0xC0) then
           if 0x800 ≤ cp3 b0 b1 b2 ∧ ¬(0xD800 ≤ cp3 b0 b1 b2 ∧ cp3 b0 b1 b2 ≤ 0xDFFF) then
             some [cp3 b0 b1 b2]
           else none
         else none)
      else if b0 < 0xF8 then none
      else none := rfl

theorem utf8DecodeBytes_sh4 (b0 b1 b2 b3 : Nat) :
    utf8DecodeBytes [b0, b1, b2, b3] =
      if b0 < 0x80 then Option.map (fun cs => b0 :: cs) (utf8DecodeBytes [b1, b2, b3])
      else if b0 < 0xC0 then none
      else if b0 < 0xE0 then
        (if 0x80 ≤ b1 ∧ b1 < 0xC0 then
           if 0x80 ≤ cp2 b0 b1 then
             Option.map (fun cs => cp2 b0 b1 :: cs) (utf8DecodeBytes [b2, b3])
           else none
         else none)
      else if b0 < 0xF0 then
        (if (0x80 ≤ b1 ∧ b1 < 0xC0) ∧ (0x80 ≤ b2 ∧ b2 < 0xC0) then
           if 0x800 ≤ cp3 b0 b1 b2 ∧ ¬(0xD800 ≤ cp3 b0 b1 b2 ∧ cp3 b0 b1 b2 ≤ 0xDFFF) then
             Option.map (fun cs => cp3 b0 b1 b2 :: cs) (utf8DecodeBytes [b3])
           else none
         else none)
      else if b0 < 0xF8 then
        (if (0x80 ≤ b1 ∧ b1 < 0xC0) ∧ (0x80 ≤ b2 ∧ b2 < 0xC0) ∧ (0x80 ≤ b3 ∧ b3 < 0xC0) then
           if 0x10000 ≤ cp4 b0 b1 b2 b3 ∧ cp4 b0 b1 b2 b3 ≤ 0x10FFFF then
             some [cp4 b0 b1 b2 b3]
           else none
         else none)
      else none := rfl

/-! Evaluation of the UTF-8 decoder on the byte shapes the codec rebuilds. -/

theorem utf8DecodeBytes_one (n : Nat) (h : n < 0x80) : utf8DecodeBytes [n] = some [n] := by
  rw [utf8DecodeBytes_sh1, if_pos h]

theorem utf8DecodeBytes_two (n : Nat) (h1 : 0x80 ≤ n) (h2 : n < 0x800) :
    utf8DecodeBytes [0xC0 ||| (n >>> 6), 0x80 ||| (n &&& 0x3F)] = some [n] := by
  have hb0 : 0xC0 ||| (n >>> 6) = 192 + n / 64 := hdr2 n h2
  have hb1 : 0x80 ||| (n &&& 0x3F) = 128 + n % 64 := contLow n
  have hc : cp2 (0xC0 ||| (n >>> 6)) (0x80 ||| (n &&& 0x3F)) = n := tok2_arith n h1 h2
  have c1 : ¬(0xC0 ||| (n >>> 6) < 0x80) := by rw [hb0]; omega
  have c2 : ¬(0xC0 ||| (n >>> 6) < 0xC0) := by rw [hb0]; omega
  have c3 : 0xC0 ||| (n >>> 6) < 0xE0 := by rw [hb0]; omega
  have c4 : 0x80 ≤ 0x80 ||| (n &&& 0x3F) ∧ 0x80 ||| (n &&& 0x3F) < 0xC0 := by rw [hb1]; omega
  rw [utf8DecodeBytes_sh2, if_neg c1, if_neg c2, if_pos c3, if_pos c4, hc, if_pos h1]

theorem utf8DecodeBytes_three (n : Nat) (h1 : 0x800 ≤ n) (h2 : n < 0x10000) :
    utf8DecodeBytes
        [0xE0 ||| (n >>> 12), 0x80 ||| ((n >>> 6) &&& 0x3F), 0x80 ||| (n &&& 0x3F)] =
      if 0xD800 ≤ n ∧ n ≤ 0xDFFF then none else some [n] := by
  have hb0 : 0xE0 ||| (n >>> 12) = 224 + n / 4096 := hdr3 n h2
  have hb1 : 0x80 ||| ((n >>> 6) &&& 0x3F) = 128 + n / 64 % 64 := cont6 n
  have hb2 : 0x80 ||| (n &&& 0x3F) = 128 + n % 64 := contLow n
  have hc : cp3 (0xE0 ||| (n >>> 12)) (0x80 ||| ((n >>> 6) &&& 0x3F)) (0x80 ||| (n &&& 0x3F)) = n :=
    tok3_arith n h1 h2
  have c1 : ¬(0xE0 ||| (n >>> 12) < 0x80) := by rw [hb0]; omega
  have c2 : ¬(0xE0 ||| (n >>> 12) < 0xC0) := by rw [hb0]; omega
  have c3 : ¬(0xE0 ||| (n >>> 12) < 0xE0) := by rw [hb0]; omega
  have c4 : 0xE0 ||| (n >>> 12) < 0xF0 := by rw [hb0]; omega
  have c5 : (0x80 ≤ 0x80 ||| ((n >>> 6) &&& 0x3F) ∧ 0x80 ||| ((n >>> 6) &&& 0x3F) < 0xC0) ∧
      (0x80 ≤ 0x80 ||| (n &&& 0x3F) ∧ 0x80 ||| (n &&& 0x3F) < 0xC0) := by
    rw [hb1, hb2]; omega
  rw [utf8DecodeBytes_sh3, if_neg c1, if_neg c2, if_neg c3, if_pos c4, if_pos c5, hc]
  by_cases hs : 0xD800 ≤ n ∧ n ≤ 0xDFFF
  · have hcond : ¬(0x800 ≤ n ∧ ¬(0xD800 ≤ n ∧ n ≤ 0xDFFF)) := by omega
    rw [if_neg hcond, if_pos hs]
  · have hcond : 0x800 ≤ n ∧ ¬(0xD800 ≤ n ∧ n ≤ 0xDFFF) := ⟨h1, hs⟩
    rw [if_pos hcond, if_neg hs]

theorem utf8DecodeBytes_four (n : Nat) (h1 : 0x10000 ≤ n) (h2 : n < 0x110000) :
    utf8DecodeBytes
        [0xF0 ||| (n >>> 18), 0x80 ||| ((n >>> 12) &&& 0x3F),
         0x80 ||| ((n >>> 6) &&& 0x3F), 0x80 ||| (n &&& 0x3F)] = some [n] := by
  have hb0 : 0xF0 ||| (n >>> 18) = 240 + n / 262144 := hdr4 n h2
  have hb1 : 0x80 ||| ((n >>> 12) &&& 0x3F) = 128 + n / 4096 % 64 := cont12 n
  have hb2 : 0x80 ||| ((n >>> 6) &&& 0x3F) = 128 + n / 64 % 64 := cont6 n
  have hb3 : 0x80 ||| (n &&& 0x3F) = 128 + n % 64 := contLow n
  have hc : cp4 (0xF0 ||| (n >>> 18)) (0x80 ||| ((n >>> 12) &&& 0x3F))
      (0x80 ||| ((n >>> 6) &&& 0x3F)) (0x80 ||| (n &&& 0x3F)) = n := tok4_arith n h1 h2
  have c1 : ¬(0xF0 ||| (n >>> 18) < 0x80) := by rw [hb0]; omega
  have c2 : ¬(0xF0 ||| (n >>> 18) < 0xC0) := by rw [hb0]; omega
  have c3 : ¬(0xF0 ||| (n >>> 18) < 0xE0) := by rw [hb0]; omega
  have c4 : ¬(0xF0 ||| (n >>> 18) < 0xF0) := by rw [hb0]; omega
  have c5 : 0xF0 ||| (n >>> 18) < 0xF8 := by rw [hb0]; omega
  have c6 : (0x80 ≤ 0x80 ||| ((n >>> 12) &&& 0x3F) ∧ 0x80 ||| ((n >>> 12) &&& 0x3F) < 0xC0) ∧
      (0x80 ≤ 0x80 ||| ((n >>> 6) &&& 0x3F) ∧ 0x80 ||| ((n >>> 6) &&& 0x3F) < 0xC0) ∧
      (0x80 ≤ 0x80 ||| (n &&& 0x3F) ∧ 0x80 ||| (n &&& 0x3F) < 0xC0) := by
    rw [hb1, hb2, hb3]; omega
  have c7 : 0x10000 ≤ n ∧ n ≤ 0x10FFFF := by omega
  rw [utf8DecodeBytes_sh4, if_neg c1, if_neg c2, if_neg c3, if_neg c4, if_pos c5, if_pos c6, hc,
      if_pos c7]

/-! Behaviour of the per-character transforms on their whole domains. -/

/-- On a valid scalar value, the token produced is the codepoint itself. -/
theorem tokenizeChar_eq (c : Nat) (h : ValidScalar c) : tokenizeChar c = .ok c := by
  obtain ⟨hle, hsur⟩ := h
  unfold tokenizeChar utf8EncodeChar
  rw [if_neg hsur]
  by_cases h1 : c < 0x80
  · rw [if_pos h1]
    show Except.ok (c &&& 0x7F) = Except.ok c
    rw [tok1_arith c h1]
  · rw [if_neg h1]
    by_cases h2 : c < 0x800
    · rw [if_pos h2]
      show Except.ok (cp2 (0xC0 ||| (c >>> 6)) (0x80 ||| (c &&& 0x3F))) = Except.ok c
      rw [tok2_arith c (by omega) h2]
    · rw [if_neg h2]
      by_cases h3 : c < 0x10000
      · rw [if_pos h3]
        show Except.ok (cp3 (0xE0 ||| (c >>> 12)) (0x80 ||| ((c >>> 6) &&& 0x3F))
            (0x80 ||| (c &&& 0x3F))) = Except.ok c
        rw [tok3_arith c (by omega) h3]
      · rw [if_neg h3]
        show Except.ok (cp4 (0xF0 ||| (c >>> 18)) (0x80 ||| ((c >>> 12) &&& 0x3F))
            (0x80 ||| ((c >>> 6) &&& 0x3F)) (0x80 ||| (c &&& 0x3F))) = Except.ok c
        rw [tok4_arith c (by omega) (by omega)]

/-- On a valid scalar value, decoding its token rebuilds exactly that character. -/
theorem detokenizeChar_eq (c : Nat) (h : ValidScalar c) : detokenizeChar (c : Int) = .ok [c] := by
  obtain ⟨hle, hsur⟩ := h
  have htn : ((c : Int)).toNat = c := Int.toNat_natCast c
  unfold detokenizeChar
  rw [htn]
  by_cases h1 : c < 0x80
  · rw [if_pos (show (c : Int) < 0x80 by omega)]
    rw [mkBytes_one c (by omega)]
    show decodeOrFail [c] (c : Int) = .ok [c]
    unfold decodeOrFail
    rw [utf8DecodeBytes_one c h1]
  · rw [if_neg (show ¬((c : Int) < 0x80) by omega)]
    by_cases h2 : c < 0x800
    · rw [if_pos h2]
      rw [mkBytes_two (0xC0 ||| (c >>> 6)) (0x80 ||| (c &&& 0x3F))
            (by rw [hdr2 c h2]; omega) (by rw [contLow c]; omega)]
      show decodeOrFail [0xC0 ||| (c >>> 6), 0x80 ||| (c &&& 0x3F)] (c : Int) = .ok [c]
      unfold decodeOrFail
      rw [utf8DecodeBytes_two c (by omega) h2]
    · rw [if_neg h2]
      by_cases h3 : c < 0x10000
      · rw [if_pos h3]
        rw [mkBytes_three (0xE0 ||| (c >>> 12)) (0x80 ||| ((c >>> 6) &&& 0x3F))
              (0x80 ||| (c &&& 0x3F)) (by rw [hdr3 c h3]; omega)
              (by rw [cont6 c]; omega) (by rw [contLow c]; omega)]
        show decodeOrFail
            [0xE0 ||| (c >>> 12), 0x80 ||| ((c >>> 6) &&& 0x3F), 0x80 ||| (c &&& 0x3F)]
            (c : Int) = .ok [c]
        unfold decodeOrFail
        rw [utf8DecodeBytes_three c (by omega) h3, if_neg hsur]
      · rw [if_neg h3, if_pos (show c < 0x110000 by omega)]
        rw [mkBytes_four (0xF0 ||| (c >>> 18)) (0x80 ||| ((c >>> 12) &&& 0x3F))
              (0x80 ||| ((c >>> 6) &&& 0x3F)) (0x80 ||| (c &&& 0x3F))
              (by rw [hdr4 c (by omega)]; omega) (by rw [cont12 c]; omega)
              (by rw [cont6 c]; omega) (by rw [contLow c]; omega)]
        show decodeOrFail
            [0xF0 ||| (c >>> 18), 0x80 ||| ((c >>> 12) &&& 0x3F),
             0x80 ||| ((c >>> 6) &&& 0x3F), 0x80 ||| (c &&& 0x3F)]
            (c : Int) = .ok [c]
        unfold decodeOrFail
        rw [utf8DecodeBytes_four c (by omega) (by omega)]

/-- A surrogate-range token passes the magnitude classification into the
3-byte class, but the rebuilt byte sequence is rejected by the UTF-8
decoder (source lines 66-72 and 83-86). -/
theorem detokenizeChar_surr (t : Int) (hlo : 0xD800 ≤ t) (hhi : t ≤ 0xDFFF) :
    detokenizeChar t = .error (.invalidSequence
      [0xE0 ||| (t.toNat >>> 12), 0x80 ||| ((t.toNat >>> 6) &&& 0x3F),
       0x80 ||| (t.toNat &&& 0x3F)] t) := by
  unfold detokenizeChar
  rw [if_neg (show ¬(t < 0x80) by omega), if_neg (show ¬(t.toNat < 0x800) by omega),
      if_pos (show t.toNat < 0x10000 by omega)]
  rw [mkBytes_three (0xE0 ||| (t.toNat >>> 12)) (0x80 ||| ((t.toNat >>> 6) &&& 0x3F))
        (0x80 ||| (t.toNat &&& 0x3F)) (by rw [hdr3 t.toNat (by omega)]; omega)
        (by rw [cont6 t.toNat]; omega) (by rw [contLow t.toNat]; omega)]
  show decodeOrFail
      [0xE0 ||| (t.toNat >>> 12), 0x80 ||| ((t.toNat >>> 6) &&& 0x3F),
       0x80 ||| (t.toNat &&& 0x3F)] t = _
  unfold decodeOrFail
  rw [utf8DecodeBytes_three t.toNat (by omega) (by omega),
      if_pos (show 0xD800 ≤ t.toNat ∧ t.toNat ≤ 0xDFFF by omega)]

/-- A token at or above `0x110000` falls through every magnitude class and
hits the raise at source line 82. -/
theorem detokenizeChar_oor (t : Int) (h : 0x110000 ≤ t) :
    detokenizeChar t = .error (.tokenOutOfRange t) := by
  unfold detokenizeChar
  rw [if_neg (show ¬(t < 0x80) by omega), if_neg (show ¬(t.toNat < 0x800) by omega),
      if_neg (show ¬(t.toNat < 0x10000) by omega),
      if_neg (show ¬(t.toNat < 0x110000) by omega)]

/-- A negative token enters the 1-byte branch, where the bytes constructor
rejects it (source line 59). -/
theorem detokenizeChar_neg (t : Int) (h : t < 0) :
    detokenizeChar t = .error .byteValueOutOfRange := by
  unfold detokenizeChar
  rw [if_pos (show t < 0x80 by omega), mkBytes_neg t h]
  rfl

/-! Lifting the per-character facts to whole strings and token lists. -/

/-- On a valid string, `tokenize` is the identity on the codepoint list. -/
theorem tokenize_eq (s : List Nat) (h : ∀ c ∈ s, ValidScalar c) : tokenize s = .ok s := by
  induction s with
  | nil => rfl
  | cons c cs ih =>
    simp only [tokenize, tokenizeChar_eq c (h c (by simp)),
               ih (fun x hx => h x (by simp [hx]))]
    rfl

/-- On the token list of a valid string, `detokenize` rebuilds the string. -/
theorem detokenize_map_eq (s : List Nat) (h : ∀ c ∈ s, ValidScalar c) :
    detokenize (s.map (Nat.cast : Nat → Int)) = .ok s := by
  induction s with
  | nil => rfl
  | cons c cs ih =>
    simp only [List.map_cons, detokenize, detokenizeChar_eq c (h c (by simp)),
               ih (fun x hx => h x (by simp [hx]))]
    rfl

/-- Fail-fast propagation: if every token before `t` decodes and `t` raises,
the whole call raises the error of `t`. -/
theorem detokenize_append_error (l : List Int) (t : Int) (r : List Int)
    (e : DetokenizeError) (hl : ∀ u ∈ l, ∃ cs, detokenizeChar u = .ok cs)
    (ht : detokenizeChar t = .error e) :
    detokenize (l ++ t :: r) = .error e := by
  induction l with
  | nil =>
    simp only [List.nil_append, detokenize, ht]
    rfl
  | cons u us ih =>
    obtain ⟨cs, hcs⟩ := hl u (by simp)
    simp only [List.cons_append, List.append_eq, detokenize, hcs,
               ih (fun v hv => hl v (by simp [hv]))]
    rfl

/-- A list containing any token whose own decoding raises cannot decode. -/
theorem detokenize_mem_error : ∀ (toks : List Int) (t : Int), t ∈ toks →
    (∀ cs, detokenizeChar t ≠ .ok cs) → ∃ e, detokenize toks = .error e := by
  intro toks
  induction toks with
  | nil => intro t hmem; cases hmem
  | cons u us ih =>
    intro t hmem ht
    cases hu : detokenizeChar u with
    | error e =>
      refine ⟨e, ?_⟩
      simp only [detokenize, hu]
      rfl
    | ok cs =>
      rcases List.mem_cons.mp hmem with rfl | hmem2
      · exact absurd hu (ht cs)
      · obtain ⟨e, he⟩ := ih t hmem2 ht
        refine ⟨e, ?_⟩
        simp only [detokenize, hu, he]
        rfl

/-! The claims. -/

/-- C1: for every string composed exclusively of valid Unicode scalar values,
detokenizing the token list produced by `tokenize` recovers the string. -/
theorem c1_round_trip (s : List Nat) (h : ∀ c ∈ s, ValidScalar c) :
    ∃ ts, tokenize s = .ok ts ∧ detokenize (ts.map (Nat.cast : Nat → Int)) = .ok s :=
  ⟨s, tokenize_eq s h, detokenize_map_eq s h⟩

/-- Witness for C1 at the concrete string H, 世, 👋. -/
theorem c1_round_trip_witness :
    (∀ c ∈ [72, 19990, 128075], ValidScalar c) ∧
      ∃ ts, tokenize [72, 19990, 128075] = .ok ts ∧
        detokenize (ts.map (Nat.cast : Nat → Int)) = .ok [72, 19990, 128075] :=
  ⟨by decide, c1_round_trip [72, 19990, 128075] (by decide)⟩

/-- C2: for every token list whose elements are all valid Unicode scalar
values, tokenizing the decoded string gives back exactly the token list. -/
theorem c2_tokens_round_trip (ts : List Int) (h : ∀ t ∈ ts, ValidScalarInt t) :
    ∃ s : List Nat, detokenize ts = .ok s ∧ tokenize s = .ok s ∧
      s.map (Nat.cast : Nat → Int) = ts := by
  induction ts with
  | nil => exact ⟨[], rfl, rfl, rfl⟩
  | cons t ts2 ih =>
    obtain ⟨h0, h1, h2⟩ := h t (by simp)
    obtain ⟨s2, hd, htk, hmap⟩ := ih (fun u hu => h u (by simp [hu]))
    have hvs : ValidScalar t.toNat := by
      unfold ValidScalar
      omega
    have hcast : ((t.toNat : Nat) : Int) = t := Int.toNat_of_nonneg h0
    have hchar : detokenizeChar t = .ok [t.toNat] := by
      have hch := detokenizeChar_eq t.toNat hvs
      rwa [hcast] at hch
    refine ⟨t.toNat :: s2, ?_, ?_, ?_⟩
    · simp only [detokenize, hchar, hd]
      rfl
    · simp only [tokenize, tokenizeChar_eq t.toNat hvs, htk]
      rfl
    · simp only [List.map_cons, hmap, hcast]

/-- Witness for C2 at the concrete token list 72, 19990, 128075. -/
theorem c2_tokens_round_trip_witness :
    (∀ t ∈ [(72 : Int), 19990, 128075], ValidScalarInt t) ∧
      ∃ s : List Nat, detokenize [(72 : Int), 19990, 128075] = .ok s ∧ tokenize s = .ok s ∧
        s.map (Nat.cast : Nat → Int) = [(72 : Int), 19990, 128075] :=
  ⟨by decide, c2_tokens_round_trip [(72 : Int), 19990, 128075] (by decide)⟩

/-- C3: the token produced for a valid character is its numeric codepoint,
and on a valid string `tokenize` returns exactly the codepoint list. -/
theorem c3_token_is_codepoint (c : Nat) (s : List Nat) (hc : ValidScalar c)
    (hs : ∀ x ∈ s, ValidScalar x) : tokenizeChar c = .ok c ∧ tokenize s = .ok s :=
  ⟨tokenizeChar_eq c hc, tokenize_eq s hs⟩

/-- Witness for C3 at 世 (U+4E16, codepoint 19990). -/
theorem c3_token_is_codepoint_witness :
    (ValidScalar 19990 ∧ ∀ x ∈ [72, 19990], ValidScalar x) ∧
      tokenizeChar 19990 = .ok 19990 ∧ tokenize [72, 19990] = .ok [72, 19990] :=
  ⟨⟨by decide, by decide⟩, c3_token_is_codepoint 19990 [72, 19990] (by decide) (by decide)⟩

/-- C4 counterexample: a list containing the surrogate token 0xD800 can fail
with an error other than InvalidReconstructedSequence when an earlier token
fails first; here the out-of-range 0x110000 aborts the call before 0xD800
is reached, so the claim as stated (any list containing a surrogate fails
with InvalidReconstructedSequence) is false. -/
theorem c4_counterexample :
    detokenize [(0x110000 : Int), (0xD800 : Int)] = .error (.tokenOutOfRange 0x110000) ∧
      DetokenizeError.tokenOutOfRange 0x110000 ≠
        DetokenizeError.invalidSequence [0xED, 0xA0, 0x80] 0xD800 :=
  ⟨by decide, by decide⟩

/-- C4 (amended): for every surrogate-range token `t`, any `detokenize` call
on a list containing `t` fails; and whenever every token before `t` decodes
successfully the call fails with the InvalidReconstructedSequence error
carrying the reconstructed 3-byte sequence — even though `t` lies inside the
3-byte magnitude range. -/
theorem c4_surrogate_rejected (t : Int) (hlo : 0xD800 ≤ t) (hhi : t ≤ 0xDFFF) :
    (∀ toks : List Int, t ∈ toks → ∃ e, detokenize toks = .error e) ∧
    (∀ l r : List Int, (∀ u ∈ l, ∃ cs, detokenizeChar u = .ok cs) →
      detokenize (l ++ t :: r) = .error (.invalidSequence
        [0xE0 ||| (t.toNat >>> 12), 0x80 ||| ((t.toNat >>> 6) &&& 0x3F),
         0x80 ||| (t.toNat &&& 0x3F)] t)) ∧
    0x800 ≤ t ∧ t < 0x10000 := by
  have hchar := detokenizeChar_surr t hlo hhi
  refine ⟨?_, ?_, by omega, by omega⟩
  · intro toks hmem
    exact detokenize_mem_error toks t hmem
      (fun cs hcs => by rw [hchar] at hcs; exact Except.noConfusion hcs)
  · intro l r hl
    exact detokenize_append_error l t r _ hl hchar

/-- Witness for C4 at the token 0xD800: decoding the singleton list fails
with InvalidReconstructedSequence on the bytes 0xED 0xA0 0x80. -/
theorem c4_surrogate_rejected_witness :
    ((0xD800 : Int) ≤ 0xD800 ∧ (0xD800 : Int) ≤ 0xDFFF) ∧
      detokenize [(0xD800 : Int)] =
        .error (.invalidSequence [0xED, 0xA0, 0x80] 0xD800) := by
  refine ⟨⟨by decide, by decide⟩, ?_⟩
  have h := (c4_surrogate_rejected 0xD800 (by decide) (by decide)).2.1 [] [] (by simp)
  have hb : DetokenizeError.invalidSequence
      [0xE0 ||| ((0xD800 : Int).toNat >>> 12), 0x80 ||| (((0xD800 : Int).toNat >>> 6) &&& 0x3F),
       0x80 ||| ((0xD800 : Int).toNat &&& 0x3F)] 0xD800 =
      DetokenizeError.invalidSequence [0xED, 0xA0, 0x80] 0xD800 := by decide
  rw [List.nil_append] at h
  rw [hb] at h
  exact h

/-- C5 counterexample: for the negative token -1, `detokenize` fails with
the range error of the bytes constructor, which is not the TokenOutOfRange
error identifying the token, so the claim as stated is false for negative
tokens. -/
theorem c5_counterexample :
    detokenize [(-1 : Int)] = .error .byteValueOutOfRange ∧
      DetokenizeError.byteValueOutOfRange ≠ DetokenizeError.tokenOutOfRange (-1) :=
  ⟨by decide, by decide⟩

/-- C5 (amended): any `detokenize` call on a list containing a token that is
negative or at least 0x110000 fails.  When every earlier token decodes, a
token at or above 0x110000 fails with the TokenOutOfRange error identifying
it, while a negative token fails with the byte-constructor range error,
which does not carry the token. -/
theorem c5_out_of_range (t : Int) (h : 0x110000 ≤ t ∨ t < 0) :
    (∀ toks : List Int, t ∈ toks → ∃ e, detokenize toks = .error e) ∧
    (0x110000 ≤ t → ∀ l r : List Int, (∀ u ∈ l, ∃ cs, detokenizeChar u = .ok cs) →
      detokenize (l ++ t :: r) = .error (.tokenOutOfRange t)) ∧
    (t < 0 → ∀ l r : List Int, (∀ u ∈ l, ∃ cs, detokenizeChar u = .ok cs) →
      detokenize (l ++ t :: r) = .error .byteValueOutOfRange) := by
  refine ⟨?_, ?_, ?_⟩
  · intro toks hmem
    rcases h with h | h
    · exact detokenize_mem_error toks t hmem
        (fun cs hcs => by rw [detokenizeChar_oor t h] at hcs; exact Except.noConfusion hcs)
    · exact detokenize_mem_error toks t hmem
        (fun cs hcs => by rw [detokenizeChar_neg t h] at hcs; exact Except.noConfusion hcs)
  · intro hge l r hl
    exact detokenize_append_error l t r _ hl (detokenizeChar_oor t hge)
  · intro hneg l r hl
    exact detokenize_append_error l t r _ hl (detokenizeChar_neg t hneg)

/-- Witness for C5 at the token 0x110000. -/
theorem c5_out_of_range_witness :
    ((0x110000 : Int) ≤ 0x110000 ∨ (0x110000 : Int) < 0) ∧
      detokenize [(0x110000 : Int)] = .error (.tokenOutOfRange 0x110000) := by
  refine ⟨Or.inl (by decide), ?_⟩
  have h := (c5_out_of_range 0x110000 (Or.inl (by decide))).2.1 (by decide) [] [] (by simp)
  rw [List.nil_append] at h
  exact h

/-- C6 counterexample: 世 is U+4E16, whose codepoint is 19990, not 20000;
`tokenize` returns the codepoint, so the claimed token list differs from
the actual one. -/
theorem c6_counterexample :
    tokenize [0x4E16] = .ok [19990] ∧ tokenize [0x4E16] ≠ .ok [20000] :=
  ⟨by decide, by decide⟩

/-- C6 (amended): `tokenize` applied to the one-character string 世 (U+4E16)
returns the token list with the single codepoint 19990. -/
theorem c6_tokenize_shi : tokenize [0x4E16] = .ok [19990] := by decide

/-- C7: the string Hello, 世界! 👋 tokenizes to exactly the twelve listed
integers, and detokenizing that list reproduces the string exactly. -/
theorem c7_hello_world :
    tokenize [72, 101, 108, 108, 111, 44, 32, 19990, 30028, 33, 32, 128075] =
      .ok [72, 101, 108, 108, 111, 44, 32, 19990, 30028, 33, 32, 128075] ∧
    detokenize [(72 : Int), 101, 108, 108, 111, 44, 32, 19990, 30028, 33, 32, 128075] =
      .ok [72, 101, 108, 108, 111, 44, 32, 19990, 30028, 33, 32, 128075] :=
  ⟨by decide, by decide⟩

/-- C8: on a valid string, the token list has one entry per Unicode scalar
value, so its length is the character count of the input. -/
theorem c8_length_preservation (s : List Nat) (h : ∀ c ∈ s, ValidScalar c) :
    ∃ ts, tokenize s = .ok ts ∧ ts.length = s.length :=
  ⟨s, tokenize_eq s h, rfl⟩

/-- Witness for C8 at a three-character string whose UTF-8 byte count is 8. -/
theorem c8_length_preservation_witness :
    (∀ c ∈ [72, 19990, 128075], ValidScalar c) ∧
      ∃ ts, tokenize [72, 19990, 128075] = .ok ts ∧ ts.length = [72, 19990, 128075].length :=
  ⟨by decide, c8_length_preservation [72, 19990, 128075] (by decide)⟩

/-- C9: on a valid string the defensive length-check branch is unreachable:
`tokenize` never returns the EncodingLengthError, because every valid scalar
value encodes to between 1 and 4 UTF-8 bytes. -/
theorem c9_defensive_branch_unreachable (s : List Nat) (h : ∀ c ∈ s, ValidScalar c) :
    (∀ len c, tokenize s ≠ .error (.encodingLength len c)) ∧
    (∀ c ∈ s, 1 ≤ (utf8EncodeChar c).length ∧ (utf8EncodeChar c).length ≤ 4) := by
  constructor
  · intro len c hq
    rw [tokenize_eq s h] at hq
    exact Except.noConfusion hq
  · intro c hc
    unfold utf8EncodeChar
    split_ifs <;> simp

/-- Witness for C9 at a concrete valid string. -/
theorem c9_defensive_branch_unreachable_witness :
    (∀ c ∈ [72, 19990, 128075], ValidScalar c) ∧
      ((∀ len c, tokenize [72, 19990, 128075] ≠ .error (.encodingLength len c)) ∧
        (∀ c ∈ [72, 19990, 128075],
          1 ≤ (utf8EncodeChar c).length ∧ (utf8EncodeChar c).length ≤ 4)) :=
  ⟨by decide, c9_defensive_branch_unreachable [72, 19990, 128075] (by decide)⟩

/-- C10: every token `tokenize` emits for a valid string is itself a valid
Unicode scalar value, and consequently `detokenize` succeeds on every output
of `tokenize`. -/
theorem c10_tokens_valid (s : List Nat) (h : ∀ c ∈ s, ValidScalar c) :
    ∃ ts, tokenize s = .ok ts ∧ (∀ t ∈ ts, ValidScalar t) ∧
      ∃ out, detokenize (ts.map (Nat.cast : Nat → Int)) = .ok out :=
  ⟨s, tokenize_eq s h, h, s, detokenize_map_eq s h⟩

/-- Witness for C10 at a concrete valid string. -/
theorem c10_tokens_valid_witness :
    (∀ c ∈ [72, 19990, 128075], ValidScalar c) ∧
      ∃ ts, tokenize [72, 19990, 128075] = .ok ts ∧ (∀ t ∈ ts, ValidScalar t) ∧
        ∃ out, detokenize (ts.map (Nat.cast : Nat → Int)) = .ok out :=
  ⟨by decide, c10_tokens_valid [72, 19990, 128075] (by decide)⟩
